import Mathlib

/-!
Verification of the scoring and materialization engine of `lib/generate_db.py`.

Modelling conventions, chosen once for the whole development:
* A whitespace-separated text matrix (gamma, beta) is a `List (List ℚ)`:
  the decimal literals in the files are exact rationals.  Arithmetic that the
  program performs with `numpy` floating point is idealized as exact real
  arithmetic; a parsed matrix is cast to `List (List ℝ)` at that boundary.
* `np.inf`, produced by the zero-score remapping `x[x == 0] = np.inf`, is the
  top element of `WithTop ℝ`.
* A numpy operation that raises (shape mismatch in broadcasting or `np.dot`)
  is modelled by `Option`: `none` is the raised `ValueError`, and the
  builders propagate it monadically, as a Python exception would propagate.
* Entity ids that the script converts with `str(...)` before the SQL insert
  are kept as `ℕ`: the conversion is injective and the tables compare ids.
* `np.argsort` is modelled as a stable index sort (ties keep the original
  index order); every concrete input below either has no ties among finite
  scores or a conclusion independent of tie order.
-/

/-- The zip that `generic_generator` performs on three iterables before
`cur.executemany`: it stops at the shortest argument, as Python's `zip`
does. -/
def generic_generator3 {α β γ : Type} : List α → List β → List γ → List (α × β × γ)
  | a :: as, b :: bs, c :: cs => (a, b, c) :: generic_generator3 as bs cs
  | _, _, _ => []

/-- Insert an (index, value) pair into a list sorted by value, after every
entry whose value is less than or equal: the stable insertion step of the
model of `np.argsort`. -/
def insertByValue {α : Type} [LinearOrder α] (p : ℕ × α) : List (ℕ × α) → List (ℕ × α)
  | [] => [p]
  | q :: rest => if q.2 ≤ p.2 then q :: insertByValue p rest else p :: q :: rest

/-- Model of `np.argsort`: the indices of the list, ordered by ascending
value, ties in original index order. -/
def argsort {α : Type} [LinearOrder α] (l : List α) : List ℕ :=
  (l.enum.foldl (fun acc p => insertByValue p acc) []).map Prod.fst

/-- Models numpy broadcasting of a 1-d array `a` (shape `(n,)`) against a 2-d
array `b` (shape `(m, k)`) under an elementwise binary operation, applied as
`f aᵢ bⱼᵢ`.  The shapes are compatible when `k = n` (plain elementwise), when
`n = 1` (the single entry of `a` is stretched along each row) or when `k = 1`
(the single entry of each row of `b` is stretched); any other mismatch raises
a `ValueError` in numpy, modelled as `none`. -/
def npBroadcast (f : ℝ → ℝ → ℝ) (a : List ℝ) (b : List (List ℝ)) :
    Option (List (List ℝ)) :=
  if b.all (fun row => row.length = a.length) then
    some (b.map (fun row => List.zipWith f a row))
  else if a.length = 1 then
    some (b.map (fun row => row.map (fun y => f (a.headD 0) y)))
  else if b.all (fun row => row.length = 1) then
    some (b.map (fun row => a.map (fun x => f x (row.headD 0))))
  else none

/-- Models `np.dot(b, a)` of a 2-d `b` (shape `(m, k)`) with a 1-d `a`
(shape `(n,)`): defined only when `k = n` (`np.dot` does not broadcast),
otherwise numpy raises, modelled as `none`. -/
def npDotMatVec (b : List (List ℝ)) (a : List ℝ) : Option (List ℝ) :=
  if b.all (fun row => row.length = a.length) then
    some (b.map (fun row => (List.zipWith (fun x y => x * y) row a).sum))
  else none

/-- Sum of the squares of a list: `np.sum(row ** 2)` for one row. -/
def sumSq (row : List ℝ) : ℝ := (row.map (fun x => x ^ 2)).sum

/-- Source `bhatt_distance(a, b) = -np.log(np.dot(b**.5, a**.5))`. -/
noncomputable def bhatt_distance (a : List ℝ) (b : List (List ℝ)) : Option (List ℝ) :=
  (npDotMatVec (b.map (fun row => row.map Real.sqrt)) (a.map Real.sqrt)).map
    (fun d => d.map (fun x => -Real.log x))

/-- Source `euclidean_distance(a, b) = np.sum((a-b)**2, axis=1)**.5`. -/
noncomputable def euclidean_distance (a : List ℝ) (b : List (List ℝ)) : Option (List ℝ) :=
  (npBroadcast (fun x y => x - y) a b).map (fun m => m.map (fun row => Real.sqrt (sumSq row)))

/-- Source `kl_distance(a, b) = np.sum(a*(np.log(a)-np.log(b)), axis=1)`. -/
noncomputable def kl_distance (a : List ℝ) (b : List (List ℝ)) : Option (List ℝ) := do
  let diff ← npBroadcast (fun x y => x - y) (a.map Real.log)
    (b.map (fun row => row.map Real.log))
  let prod ← npBroadcast (fun x y => x * y) a diff
  return prod.map List.sum

/-- Source `cosine_distance(a, b) = np.dot(b,a)/(np.dot(a,a)**.5 * np.sum(b**2,axis=1)**.5)`. -/
noncomputable def cosine_distance (a : List ℝ) (b : List (List ℝ)) : Option (List ℝ) := do
  let a_norm := Real.sqrt ((List.zipWith (fun x y => x * y) a a).sum)
  let b_norm := b.map (fun row => Real.sqrt (sumSq row))
  let d ← npDotMatVec b a
  return List.zipWith (fun x y => x / y) d (b_norm.map (fun y => a_norm * y))

/-- Source `hellinger_distance(doca, docb) = np.sum((doca**.5 - docb**.5)**2, axis=1)`. -/
noncomputable def hellinger_distance (doca : List ℝ) (docb : List (List ℝ)) : Option (List ℝ) :=
  (npBroadcast (fun x y => x - y) (doca.map Real.sqrt)
    (docb.map (fun row => row.map Real.sqrt))).map (fun m => m.map sumSq)

/-- Source `get_topic_score(topica, topicb)`:
`0.5 * np.sum((np.abs(topica)**.5 - np.abs(topicb)**.5)**2, axis=1) / (100. * len(topica))`. -/
noncomputable def get_topic_score (topica : List ℝ) (topicb : List (List ℝ)) : Option (List ℝ) :=
  (npBroadcast (fun x y => x - y) (topica.map (fun x => Real.sqrt |x|))
    (topicb.map (fun row => row.map (fun x => Real.sqrt |x|)))).map
    (fun m => m.map (fun row => 0.5 * sumSq row / (100 * (topica.length : ℝ))))

/-- Source `get_term_score(terma, termb) = np.sum((terma - termb)**2, axis=1)`. -/
noncomputable def get_term_score (terma : List ℝ) (termb : List (List ℝ)) : Option (List ℝ) :=
  (npBroadcast (fun x y => x - y) terma termb).map (fun m => m.map sumSq)

/-- The Python loop body aborts the run at the first raised exception:
traverse a list with a fallible step, `none` as soon as one step fails. -/
def traverseOpt {α β : Type} (f : α → Option β) : List α → Option (List β)
  | [] => some []
  | x :: xs => do
    let y ← f x
    let ys ← traverseOpt f xs
    return y :: ys

/-- Row normalization in `write_doc_doc`:
`theta = gamma / gamma.sum(axis=1, keepdims=True)`. -/
def normalizeRows (gamma : List (List ℚ)) : List (List ℚ) :=
  gamma.map (fun row => row.map (fun x => x / row.sum))

/-- Cast a parsed rational matrix to the real matrix numpy computes with. -/
def toRealRows (m : List (List ℚ)) : List (List ℝ) :=
  m.map (fun row => List.map (fun q => ((q : ℚ) : ℝ)) row)

/-- The zero remapping `x[x == 0] = np.inf` performed before the top-K cut. -/
noncomputable def dropZeros (distance : List ℝ) : List (WithTop ℝ) :=
  List.map (fun d => if d = 0 then (⊤ : WithTop ℝ) else ((d : ℝ) : WithTop ℝ)) distance

/-- The row stream `write_doc_doc` inserts into the `doc_doc` table.  For each
reference index `a` it scores `theta[a:]` with `hellinger_distance`, remaps
zero scores to `np.inf`, takes the first 100 positions of `np.argsort`, and
zips `(str(a),)*100` with those (local, un-offset) indices and their scores. -/
noncomputable def write_doc_doc_rows (gamma : List (List ℚ)) :
    Option (List (ℕ × ℕ × WithTop ℝ)) := do
  let theta := toRealRows (normalizeRows gamma)
  let perRef ← traverseOpt (fun p => do
    let distance0 ← hellinger_distance p.2 (theta.drop p.1)
    let distance := dropZeros distance0
    let min_doc_idx := (argsort distance).take 100
    return generic_generator3 (List.replicate 100 p.1) min_doc_idx
      (min_doc_idx.map (fun i => distance.getD i ⊤))) theta.enum
  return perRef.flatten

/-- The row stream `write_doc_topic` inserts into the `doc_topic` table: for
each line `doc_no` of the gamma file, the raw parsed values zipped with
`(doc_no,)*len(doc)` and `range(len(doc))`. -/
def write_doc_topic_rows (gamma : List (List ℚ)) : List (ℕ × ℕ × ℚ) :=
  (gamma.enum.map (fun p =>
    generic_generator3 (List.replicate p.2.length p.1) (List.range p.2.length) p.2)).flatten

/-- The title `write_topics` builds for one beta row: a reverse `np.argsort`
of the parsed weights, then the display label
`"{vocab[index[0]], vocab[index[1]], vocab[index[2]]}"`. -/
def topic_title (vocab : List String) (topic : List ℚ) : String :=
  let index := (argsort topic).reverse
  "\x7b" ++ vocab.getD (index.getD 0 0) "" ++ ", " ++ vocab.getD (index.getD 1 0) ""
    ++ ", " ++ vocab.getD (index.getD 2 0) "" ++ "\x7d"

/-- The titles `write_topics` stores, one per beta row. -/
def write_topics_titles (beta : List (List ℚ)) (vocab : List String) : List String :=
  beta.map (topic_title vocab)

/-- The row stream `write_topic_topic` inserts into the `topic_topic` table:
for each reference index `topica_count`, `get_topic_score` against
`topics[topica_count:]`, zipped with `(topica_count,)*len(scores)` and the
local indices `range(len(scores))`; no zero remapping and no truncation. -/
noncomputable def write_topic_topic_rows (beta : List (List ℚ)) :
    Option (List (ℕ × ℕ × ℝ)) := do
  let topics := toRealRows beta
  let perRef ← traverseOpt (fun p => do
    let scores ← get_topic_score p.2 (topics.drop p.1)
    return generic_generator3 (List.replicate scores.length p.1)
      (List.range scores.length) scores) topics.enum
  return perRef.flatten

/-- The row stream `write_term_term` inserts into the `term_term` table.  The
parsed beta matrix is pre-transformed elementwise by `np.exp(v)**.5`; then for
each reference index `a` over `range(len(v))` (one per beta *row*),
`get_term_score` against `v[a:]`, zero remapping, the first 100 positions of
`np.argsort`, zipped with `(str(a),)*len(score)` and the local indices. -/
noncomputable def write_term_term_rows (beta : List (List ℚ)) :
    Option (List (ℕ × ℕ × WithTop ℝ)) := do
  let v := (toRealRows beta).map (fun row => row.map (fun x => Real.sqrt (Real.exp x)))
  let perRef ← traverseOpt (fun p => do
    let score0 ← get_term_score p.2 (v.drop p.1)
    let score := dropZeros score0
    let min_score_idx := (argsort score).take 100
    return generic_generator3 (List.replicate score.length p.1) min_score_idx
      (min_score_idx.map (fun i => score.getD i ⊤))) v.enum
  return perRef.flatten

/-! ### Structural lemmas about the helpers -/

theorem generic_generator3_replicate {α β γ : Type} (a : α) :
    ∀ (n : ℕ) (bs : List β) (cs : List γ),
      generic_generator3 (List.replicate n a) bs cs =
        ((bs.zip cs).take n).map (fun q => (a, q.1, q.2))
  | 0, bs, cs => by cases bs <;> cases cs <;> simp [generic_generator3]
  | n + 1, [], cs => by simp [List.replicate_succ, generic_generator3]
  | n + 1, b :: bs, [] => by simp [List.replicate_succ, generic_generator3]
  | n + 1, b :: bs, c :: cs => by
    simp [List.replicate_succ, generic_generator3,
      generic_generator3_replicate a n bs cs]

theorem insertByValue_perm {α : Type} [LinearOrder α] (p : ℕ × α) (l : List (ℕ × α)) :
    List.Perm (insertByValue p l) (p :: l) := by
  induction l with
  | nil => simp [insertByValue]
  | cons q rest ih =>
    by_cases h : q.2 ≤ p.2
    · simp only [insertByValue, if_pos h]
      exact (ih.cons q).trans (List.Perm.swap p q rest)
    · simp [insertByValue, if_neg h]

theorem foldl_insertByValue_perm {α : Type} [LinearOrder α] :
    ∀ (l acc : List (ℕ × α)),
      List.Perm (l.foldl (fun acc p => insertByValue p acc) acc) (acc ++ l)
  | [], acc => by simp
  | x :: xs, acc => by
    simp only [List.foldl_cons]
    refine (foldl_insertByValue_perm xs (insertByValue x acc)).trans ?_
    refine ((insertByValue_perm x acc).append_right xs).trans ?_
    simpa using (List.perm_middle).symm

theorem argsort_perm {α : Type} [LinearOrder α] (l : List α) :
    List.Perm (argsort l) (List.range l.length) := by
  have h := (foldl_insertByValue_perm l.enum []).map Prod.fst
  simpa [argsort, List.enum, List.range_eq_range'] using h

theorem argsort_length {α : Type} [LinearOrder α] (l : List α) :
    (argsort l).length = l.length := by
  simpa using (argsort_perm l).length_eq

theorem traverseOpt_eq_some {α β : Type} (f : α → Option β) (g : α → β) :
    ∀ (l : List α), (∀ x ∈ l, f x = some (g x)) → traverseOpt f l = some (l.map g)
  | [], _ => rfl
  | x :: xs, h => by
    simp only [traverseOpt, h x (List.mem_cons_self x xs),
      traverseOpt_eq_some f g xs (fun y hy => h y (List.mem_cons_of_mem x hy)),
      Option.bind_eq_bind, Option.some_bind, List.map_cons, Option.pure_def]

/-! ### Success and failure of the numpy layer -/

theorem npBroadcast_of_uniform (f : ℝ → ℝ → ℝ) (a : List ℝ) (b : List (List ℝ))
    (h : ∀ row ∈ b, row.length = a.length) :
    npBroadcast f a b = some (b.map (fun row => List.zipWith f a row)) := by
  rw [npBroadcast, if_pos]
  simpa [List.all_eq_true] using h

theorem npBroadcast_none (f : ℝ → ℝ → ℝ) (a : List ℝ) (b : List (List ℝ)) (k : ℕ)
    (hb : b ≠ []) (h : ∀ row ∈ b, row.length = k) (h1 : a.length ≠ k)
    (h2 : a.length ≠ 1) (h3 : k ≠ 1) : npBroadcast f a b = none := by
  obtain ⟨row, hrow⟩ := List.exists_mem_of_ne_nil b hb
  rw [npBroadcast, if_neg, if_neg, if_neg]
  · simp only [List.all_eq_true, decide_eq_true_eq]
    intro hall
    exact h3 ((h row hrow) ▸ hall row hrow)
  · exact h2
  · simp only [List.all_eq_true, decide_eq_true_eq]
    intro hall
    exact h1 ((h row hrow) ▸ (hall row hrow)).symm

theorem npDotMatVec_none (b : List (List ℝ)) (a : List ℝ) (k : ℕ)
    (hb : b ≠ []) (h : ∀ row ∈ b, row.length = k) (h1 : a.length ≠ k) :
    npDotMatVec b a = none := by
  obtain ⟨row, hrow⟩ := List.exists_mem_of_ne_nil b hb
  rw [npDotMatVec, if_neg]
  simp only [List.all_eq_true, decide_eq_true_eq]
  intro hall
  exact h1 ((h row hrow) ▸ (hall row hrow)).symm

theorem hellinger_distance_of_uniform (a : List ℝ) (b : List (List ℝ))
    (h : ∀ row ∈ b, row.length = a.length) :
    hellinger_distance a b = some (b.map (fun row =>
      sumSq (List.zipWith (fun x y => x - y) (a.map Real.sqrt) (row.map Real.sqrt)))) := by
  rw [hellinger_distance, npBroadcast_of_uniform]
  · simp [List.map_map, Function.comp]
  · intro row hrow
    simp only [List.mem_map] at hrow
    obtain ⟨r, hr, rfl⟩ := hrow
    simp [h r hr]

theorem get_topic_score_of_uniform (a : List ℝ) (b : List (List ℝ))
    (h : ∀ row ∈ b, row.length = a.length) :
    get_topic_score a b = some (b.map (fun row =>
      0.5 * sumSq (List.zipWith (fun x y => x - y)
        (a.map (fun x => Real.sqrt |x|)) (row.map (fun x => Real.sqrt |x|))) /
      (100 * (a.length : ℝ)))) := by
  rw [get_topic_score, npBroadcast_of_uniform]
  · simp [List.map_map, Function.comp]
  · intro row hrow
    simp only [List.mem_map] at hrow
    obtain ⟨r, hr, rfl⟩ := hrow
    simp [h r hr]

theorem get_term_score_of_uniform (a : List ℝ) (b : List (List ℝ))
    (h : ∀ row ∈ b, row.length = a.length) :
    get_term_score a b = some (b.map (fun row =>
      sumSq (List.zipWith (fun x y => x - y) a row))) := by
  rw [get_term_score, npBroadcast_of_uniform _ _ _ h]
  simp [List.map_map, Function.comp]

theorem sumSq_zipWith_sub_self (l : List ℝ) :
    sumSq (List.zipWith (fun x y => x - y) l l) = 0 := by
  induction l with
  | nil => simp [sumSq]
  | cons x xs ih => simp [sumSq]

/-! ### The builders under well-formed (uniform-row) input -/

theorem snd_mem_of_mem_enum {α : Type} {p : ℕ × α} {l : List α} (hp : p ∈ l.enum) :
    p.2 ∈ l := by
  have h := List.mem_map_of_mem Prod.snd hp
  simpa [List.enum] using h

theorem theta_uniform (gamma : List (List ℚ)) (k : ℕ)
    (h : ∀ row ∈ gamma, row.length = k) :
    ∀ row ∈ toRealRows (normalizeRows gamma), row.length = k := by
  intro row hrow
  simp only [toRealRows, normalizeRows, List.map_map, List.mem_map,
    Function.comp] at hrow
  obtain ⟨r, hr, rfl⟩ := hrow
  simp only [List.length_map]
  exact h r hr

theorem toRealRows_uniform (m : List (List ℚ)) (k : ℕ)
    (h : ∀ row ∈ m, row.length = k) :
    ∀ row ∈ toRealRows m, row.length = k := by
  intro row hrow
  simp only [toRealRows, List.mem_map] at hrow
  obtain ⟨r, hr, rfl⟩ := hrow
  simp only [List.length_map]
  exact h r hr

theorem dropZeros_length (l : List ℝ) : (dropZeros l).length = l.length := by
  simp [dropZeros]

/-- The per-reference block of rows `write_doc_doc` emits once
`hellinger_distance` has succeeded (uniform row lengths): a derived,
explicit form of the loop body. -/
noncomputable def doc_doc_block (theta : List (List ℝ)) (p : ℕ × List ℝ) :
    List (ℕ × ℕ × WithTop ℝ) :=
  let distance := dropZeros ((theta.drop p.1).map (fun row =>
    sumSq (List.zipWith (fun x y => x - y) (p.2.map Real.sqrt) (row.map Real.sqrt))))
  generic_generator3 (List.replicate 100 p.1) ((argsort distance).take 100)
    (((argsort distance).take 100).map (fun i => distance.getD i ⊤))

theorem write_doc_doc_rows_of_uniform (gamma : List (List ℚ)) (k : ℕ)
    (h : ∀ row ∈ gamma, row.length = k) :
    write_doc_doc_rows gamma = some
      (((toRealRows (normalizeRows gamma)).enum.map
        (doc_doc_block (toRealRows (normalizeRows gamma)))).flatten) := by
  have hth := theta_uniform gamma k h
  rw [write_doc_doc_rows]
  rw [traverseOpt_eq_some _ (doc_doc_block (toRealRows (normalizeRows gamma)))]
  · simp
  · intro p hp
    have hlen : ∀ row ∈ (toRealRows (normalizeRows gamma)).drop p.1,
        row.length = p.2.length := by
      intro row hrow
      rw [hth row (List.mem_of_mem_drop hrow), hth p.2 (snd_mem_of_mem_enum hp)]
    rw [hellinger_distance_of_uniform _ _ hlen]
    simp [doc_doc_block]

theorem doc_doc_block_length (theta : List (List ℝ)) (p : ℕ × List ℝ) :
    (doc_doc_block theta p).length = min 100 (theta.length - p.1) := by
  simp only [doc_doc_block, generic_generator3_replicate, List.length_map,
    List.length_take, List.length_zip, dropZeros_length, argsort_length,
    List.length_drop]
  omega

/-- The per-reference block of rows `write_topic_topic` emits once
`get_topic_score` has succeeded (uniform row lengths). -/
noncomputable def topic_topic_block (topics : List (List ℝ)) (p : ℕ × List ℝ) :
    List (ℕ × ℕ × ℝ) :=
  let scores := (topics.drop p.1).map (fun row =>
    0.5 * sumSq (List.zipWith (fun x y => x - y)
      (p.2.map (fun x => Real.sqrt |x|)) (row.map (fun x => Real.sqrt |x|))) /
    (100 * (p.2.length : ℝ)))
  generic_generator3 (List.replicate scores.length p.1)
    (List.range scores.length) scores

theorem write_topic_topic_rows_of_uniform (beta : List (List ℚ)) (k : ℕ)
    (h : ∀ row ∈ beta, row.length = k) :
    write_topic_topic_rows beta = some
      (((toRealRows beta).enum.map (topic_topic_block (toRealRows beta))).flatten) := by
  have hth := toRealRows_uniform beta k h
  rw [write_topic_topic_rows]
  rw [traverseOpt_eq_some _ (topic_topic_block (toRealRows beta))]
  · simp
  · intro p hp
    have hlen : ∀ row ∈ (toRealRows beta).drop p.1, row.length = p.2.length := by
      intro row hrow
      rw [hth row (List.mem_of_mem_drop hrow), hth p.2 (snd_mem_of_mem_enum hp)]
    rw [get_topic_score_of_uniform _ _ hlen]
    simp [topic_topic_block]

/-- The per-reference block of rows `write_term_term` emits once
`get_term_score` has succeeded (uniform row lengths). -/
noncomputable def term_term_block (v : List (List ℝ)) (p : ℕ × List ℝ) :
    List (ℕ × ℕ × WithTop ℝ) :=
  let score := dropZeros ((v.drop p.1).map (fun row =>
    sumSq (List.zipWith (fun x y => x - y) p.2 row)))
  generic_generator3 (List.replicate score.length p.1) ((argsort score).take 100)
    (((argsort score).take 100).map (fun i => score.getD i ⊤))

theorem write_term_term_rows_of_uniform (beta : List (List ℚ)) (k : ℕ)
    (h : ∀ row ∈ beta, row.length = k) :
    write_term_term_rows beta = some
      ((((toRealRows beta).map (fun row => row.map (fun x => Real.sqrt (Real.exp x)))).enum.map
        (term_term_block ((toRealRows beta).map
          (fun row => row.map (fun x => Real.sqrt (Real.exp x)))))).flatten) := by
  have hth : ∀ row ∈ (toRealRows beta).map (fun row => row.map (fun x => Real.sqrt (Real.exp x))),
      row.length = k := by
    intro row hrow
    simp only [List.mem_map] at hrow
    obtain ⟨r, hr, rfl⟩ := hrow
    simp only [List.length_map]
    exact toRealRows_uniform beta k h r hr
  rw [write_term_term_rows]
  rw [traverseOpt_eq_some _ (term_term_block ((toRealRows beta).map
    (fun row => row.map (fun x => Real.sqrt (Real.exp x)))))]
  · simp
  · intro p hp
    have hlen : ∀ row ∈ ((toRealRows beta).map
        (fun row => row.map (fun x => Real.sqrt (Real.exp x)))).drop p.1,
        row.length = p.2.length := by
      intro row hrow
      rw [hth row (List.mem_of_mem_drop hrow), hth p.2 (snd_mem_of_mem_enum hp)]
    rw [get_term_score_of_uniform _ _ hlen]
    simp [term_term_block]

theorem theta_length (gamma : List (List ℚ)) :
    (toRealRows (normalizeRows gamma)).length = gamma.length := by
  simp [toRealRows, normalizeRows]

/-- Docstring for the row-count computation of `write_doc_doc`: every
reference `a` contributes `min 100 (N - a)` rows, the remapped-to-infinity
zero scores included. -/
theorem doc_doc_total_row_count (gamma : List (List ℚ)) (k : ℕ)
    (h : ∀ row ∈ gamma, row.length = k) :
    ∃ L, write_doc_doc_rows gamma = some L ∧
      L.length =
        ((List.range gamma.length).map (fun i => min 100 (gamma.length - i))).sum := by
  refine ⟨_, write_doc_doc_rows_of_uniform gamma k h, ?_⟩
  rw [List.length_flatten, List.map_map]
  have h2 : (toRealRows (normalizeRows gamma)).enum.map
      (List.length ∘ doc_doc_block (toRealRows (normalizeRows gamma))) =
      (toRealRows (normalizeRows gamma)).enum.map
        (fun p => min 100 (gamma.length - p.1)) :=
    List.map_congr_left (fun p _ => by
      simp [doc_doc_block_length, theta_length])
  rw [h2]
  have h3 : (toRealRows (normalizeRows gamma)).enum.map
      (fun p => min 100 (gamma.length - p.1)) =
      ((toRealRows (normalizeRows gamma)).enum.map Prod.fst).map
        (fun i => min 100 (gamma.length - i)) := by
    rw [List.map_map]
    rfl
  rw [h3, List.enum, List.enumFrom_map_fst, theta_length, ← List.range_eq_range']

/-! ### Concrete evaluations -/

theorem argsort_top_coe2 : argsort [(⊤ : WithTop ℝ), ((2:ℝ) : WithTop ℝ)] = [1, 0] := by
  simp only [argsort, List.enum, List.enumFrom, List.foldl_cons, List.foldl_nil,
    insertByValue]
  rw [if_neg]
  · simp
  · simp

theorem argsort_top1 : argsort [(⊤ : WithTop ℝ)] = [0] := by
  simp [argsort, List.enum, List.enumFrom, insertByValue]

theorem argsort_top_top_coe2 :
    argsort [(⊤ : WithTop ℝ), (⊤ : WithTop ℝ), ((2:ℝ) : WithTop ℝ)] = [2, 0, 1] := by
  simp only [argsort, List.enum, List.enumFrom, List.foldl_cons, List.foldl_nil,
    insertByValue]
  rw [if_neg]
  · simp
  · simp

theorem doc_doc_eval_2x2 :
    write_doc_doc_rows [[1, 0], [0, 1]] =
      some [(0, 1, ((2:ℝ) : WithTop ℝ)), (0, 0, ⊤), (1, 0, ⊤)] := by
  have huni : ∀ row ∈ ([[1, 0], [0, 1]] : List (List ℚ)), row.length = 2 := by decide
  rw [write_doc_doc_rows_of_uniform _ 2 huni]
  have hth : toRealRows (normalizeRows [[1, 0], [0, 1]]) = [[(1:ℝ), 0], [0, 1]] := by
    norm_num [normalizeRows, toRealRows]
  rw [hth]
  have hb0 : doc_doc_block [[(1:ℝ), 0], [0, 1]] (0, [1, 0]) =
      [(0, 1, ((2:ℝ) : WithTop ℝ)), (0, 0, ⊤)] := by
    simp only [doc_doc_block]
    have hdist : ([[(1:ℝ), 0], [0, 1]].drop 0).map (fun row =>
        sumSq (List.zipWith (fun x y => x - y)
          (([(1:ℝ), 0]).map Real.sqrt) (row.map Real.sqrt))) = [0, 2] := by
      norm_num [sumSq, Real.sqrt_one, Real.sqrt_zero]
    rw [hdist]
    have hdz : dropZeros [0, 2] = [⊤, ((2:ℝ) : WithTop ℝ)] := by
      norm_num [dropZeros]
    rw [hdz, argsort_top_coe2, List.take_of_length_le (by norm_num),
      generic_generator3_replicate]
    rw [show List.map (fun i => [(⊤ : WithTop ℝ), ((2:ℝ) : WithTop ℝ)].getD i ⊤) [1, 0]
        = [((2:ℝ) : WithTop ℝ), ⊤] from rfl]
    rw [List.take_of_length_le (by norm_num)]
    rfl
  have hb1 : doc_doc_block [[(1:ℝ), 0], [0, 1]] (1, [0, 1]) = [(1, 0, (⊤ : WithTop ℝ))] := by
    simp only [doc_doc_block]
    have hdist : ([[(1:ℝ), 0], [0, 1]].drop 1).map (fun row =>
        sumSq (List.zipWith (fun x y => x - y)
          (([(0:ℝ), 1]).map Real.sqrt) (row.map Real.sqrt))) = [0] := by
      norm_num [sumSq, Real.sqrt_one, Real.sqrt_zero]
    rw [hdist]
    have hdz : dropZeros [0] = [(⊤ : WithTop ℝ)] := by
      norm_num [dropZeros]
    rw [hdz, argsort_top1, List.take_of_length_le (by norm_num),
      generic_generator3_replicate]
    rw [show List.map (fun i => [(⊤ : WithTop ℝ)].getD i ⊤) [0] = [(⊤ : WithTop ℝ)] from rfl]
    rw [List.take_of_length_le (by norm_num)]
    rfl
  rw [show ([[(1:ℝ), 0], [0, 1]] : List (List ℝ)).enum = [(0, [(1:ℝ), 0]), (1, [0, 1])] from rfl]
  rw [List.map_cons, List.map_cons, List.map_nil, hb0, hb1]
  rfl

theorem doc_doc_eval_3x3 :
    write_doc_doc_rows [[1, 0, 0], [1, 0, 0], [0, 1, 0]] =
      some [(0, 2, ((2:ℝ) : WithTop ℝ)), (0, 0, ⊤), (0, 1, ⊤),
        (1, 1, ((2:ℝ) : WithTop ℝ)), (1, 0, ⊤), (2, 0, ⊤)] := by
  have huni : ∀ row ∈ ([[1, 0, 0], [1, 0, 0], [0, 1, 0]] : List (List ℚ)),
      row.length = 3 := by decide
  rw [write_doc_doc_rows_of_uniform _ 3 huni]
  have hth : toRealRows (normalizeRows [[1, 0, 0], [1, 0, 0], [0, 1, 0]]) =
      [[(1:ℝ), 0, 0], [1, 0, 0], [0, 1, 0]] := by
    norm_num [normalizeRows, toRealRows]
  rw [hth]
  have hb0 : doc_doc_block [[(1:ℝ), 0, 0], [1, 0, 0], [0, 1, 0]] (0, [1, 0, 0]) =
      [(0, 2, ((2:ℝ) : WithTop ℝ)), (0, 0, ⊤), (0, 1, ⊤)] := by
    simp only [doc_doc_block]
    have hdist : ([[(1:ℝ), 0, 0], [1, 0, 0], [0, 1, 0]].drop 0).map (fun row =>
        sumSq (List.zipWith (fun x y => x - y)
          (([(1:ℝ), 0, 0]).map Real.sqrt) (row.map Real.sqrt))) = [0, 0, 2] := by
      norm_num [sumSq, Real.sqrt_one, Real.sqrt_zero]
    rw [hdist]
    have hdz : dropZeros [0, 0, 2] = [⊤, ⊤, ((2:ℝ) : WithTop ℝ)] := by
      norm_num [dropZeros]
    rw [hdz, argsort_top_top_coe2, List.take_of_length_le (by norm_num),
      generic_generator3_replicate]
    rw [show List.map (fun i =>
        [(⊤ : WithTop ℝ), (⊤ : WithTop ℝ), ((2:ℝ) : WithTop ℝ)].getD i ⊤) [2, 0, 1]
        = [((2:ℝ) : WithTop ℝ), ⊤, ⊤] from rfl]
    rw [List.take_of_length_le (by norm_num)]
    rfl
  have hb1 : doc_doc_block [[(1:ℝ), 0, 0], [1, 0, 0], [0, 1, 0]] (1, [1, 0, 0]) =
      [(1, 1, ((2:ℝ) : WithTop ℝ)), (1, 0, ⊤)] := by
    simp only [doc_doc_block]
    have hdist : ([[(1:ℝ), 0, 0], [1, 0, 0], [0, 1, 0]].drop 1).map (fun row =>
        sumSq (List.zipWith (fun x y => x - y)
          (([(1:ℝ), 0, 0]).map Real.sqrt) (row.map Real.sqrt))) = [0, 2] := by
      norm_num [sumSq, Real.sqrt_one, Real.sqrt_zero]
    rw [hdist]
    have hdz : dropZeros [0, 2] = [⊤, ((2:ℝ) : WithTop ℝ)] := by
      norm_num [dropZeros]
    rw [hdz, argsort_top_coe2, List.take_of_length_le (by norm_num),
      generic_generator3_replicate]
    rw [show List.map (fun i => [(⊤ : WithTop ℝ), ((2:ℝ) : WithTop ℝ)].getD i ⊤) [1, 0]
        = [((2:ℝ) : WithTop ℝ), ⊤] from rfl]
    rw [List.take_of_length_le (by norm_num)]
    rfl
  have hb2 : doc_doc_block [[(1:ℝ), 0, 0], [1, 0, 0], [0, 1, 0]] (2, [0, 1, 0]) =
      [(2, 0, (⊤ : WithTop ℝ))] := by
    simp only [doc_doc_block]
    have hdist : ([[(1:ℝ), 0, 0], [1, 0, 0], [0, 1, 0]].drop 2).map (fun row =>
        sumSq (List.zipWith (fun x y => x - y)
          (([(0:ℝ), 1, 0]).map Real.sqrt) (row.map Real.sqrt))) = [0] := by
      norm_num [sumSq, Real.sqrt_one, Real.sqrt_zero]
    rw [hdist]
    have hdz : dropZeros [0] = [(⊤ : WithTop ℝ)] := by
      norm_num [dropZeros]
    rw [hdz, argsort_top1, List.take_of_length_le (by norm_num),
      generic_generator3_replicate]
    rw [show List.map (fun i => [(⊤ : WithTop ℝ)].getD i ⊤) [0] = [(⊤ : WithTop ℝ)] from rfl]
    rw [List.take_of_length_le (by norm_num)]
    rfl
  rw [show ([[(1:ℝ), 0, 0], [1, 0, 0], [0, 1, 0]] : List (List ℝ)).enum =
    [(0, [(1:ℝ), 0, 0]), (1, [1, 0, 0]), (2, [0, 1, 0])] from rfl]
  rw [List.map_cons, List.map_cons, List.map_cons, List.map_nil, hb0, hb1, hb2]
  rfl

theorem term_term_eval_1x2 :
    write_term_term_rows [[0, 0]] = some [(0, 0, (⊤ : WithTop ℝ))] := by
  have huni : ∀ row ∈ ([[0, 0]] : List (List ℚ)), row.length = 2 := by decide
  rw [write_term_term_rows_of_uniform _ 2 huni]
  have hreal : toRealRows [[0, 0]] = [[(0:ℝ), 0]] := by norm_num [toRealRows]
  rw [hreal]
  rw [show ([[(0:ℝ), 0]] : List (List ℝ)).map
      (fun row => row.map (fun x => Real.sqrt (Real.exp x))) =
      [[Real.sqrt (Real.exp 0), Real.sqrt (Real.exp 0)]] from rfl]
  have hb : term_term_block [[Real.sqrt (Real.exp 0), Real.sqrt (Real.exp 0)]]
      (0, [Real.sqrt (Real.exp 0), Real.sqrt (Real.exp 0)]) =
      [(0, 0, (⊤ : WithTop ℝ))] := by
    simp only [term_term_block]
    have hdist : ([[Real.sqrt (Real.exp 0), Real.sqrt (Real.exp 0)]].drop 0).map
        (fun row => sumSq (List.zipWith (fun x y => x - y)
          [Real.sqrt (Real.exp 0), Real.sqrt (Real.exp 0)] row)) = [0] := by
      simp only [List.drop, List.map_cons, List.map_nil, sumSq_zipWith_sub_self]
    rw [hdist]
    have hdz : dropZeros [0] = [(⊤ : WithTop ℝ)] := by norm_num [dropZeros]
    rw [hdz, argsort_top1, List.take_of_length_le (by norm_num),
      generic_generator3_replicate]
    rw [show List.map (fun i => [(⊤ : WithTop ℝ)].getD i ⊤) [0] = [(⊤ : WithTop ℝ)] from rfl]
    rfl
  rw [show ([[Real.sqrt (Real.exp 0), Real.sqrt (Real.exp 0)]] : List (List ℝ)).enum =
    [(0, [Real.sqrt (Real.exp 0), Real.sqrt (Real.exp 0)])] from rfl]
  rw [List.map_cons, List.map_nil, hb]
  rfl

theorem topic_topic_eval_1x1 :
    write_topic_topic_rows [[1]] = some [(0, 0, (0 : ℝ))] := by
  have huni : ∀ row ∈ ([[1]] : List (List ℚ)), row.length = 1 := by decide
  rw [write_topic_topic_rows_of_uniform _ 1 huni]
  have hreal : toRealRows [[1]] = [[(1:ℝ)]] := by norm_num [toRealRows]
  rw [hreal]
  have hb : topic_topic_block [[(1:ℝ)]] (0, [1]) = [(0, 0, (0 : ℝ))] := by
    simp only [topic_topic_block]
    have hscore : ([[(1:ℝ)]].drop 0).map (fun row =>
        0.5 * sumSq (List.zipWith (fun x y => x - y)
          (([(1:ℝ)]).map (fun x => Real.sqrt |x|)) (row.map (fun x => Real.sqrt |x|))) /
        (100 * (([(1:ℝ)]).length : ℝ))) = [0] := by
      simp only [List.drop, List.map_cons, List.map_nil, sumSq_zipWith_sub_self]
      norm_num
    rw [hscore]
    rw [show List.replicate ([(0:ℝ)].length) 0 = [0] from rfl]
    rw [show List.range ([(0:ℝ)].length) = [0] from rfl]
    rfl
  rw [show ([[(1:ℝ)]] : List (List ℝ)).enum = [(0, [(1:ℝ)])] from rfl]
  rw [List.map_cons, List.map_nil, hb]
  rfl

/-! ### Sortedness of the argsort model -/

theorem sorted_insertByValue {α : Type} [LinearOrder α] (p : ℕ × α)
    (l : List (ℕ × α)) (h : l.Sorted (fun x y => x.2 ≤ y.2)) :
    (insertByValue p l).Sorted (fun x y => x.2 ≤ y.2) := by
  induction l with
  | nil => simp [insertByValue]
  | cons q rest ih =>
    rw [List.sorted_cons] at h
    by_cases hq : q.2 ≤ p.2
    · simp only [insertByValue, if_pos hq]
      rw [List.sorted_cons]
      refine ⟨fun z hz => ?_, ih h.2⟩
      rcases List.mem_cons.mp ((insertByValue_perm p rest).mem_iff.mp hz) with rfl | hz
      · exact hq
      · exact h.1 z hz
    · simp only [insertByValue, if_neg hq]
      rw [List.sorted_cons]
      refine ⟨fun z hz => ?_, List.sorted_cons.mpr h⟩
      rcases List.mem_cons.mp hz with rfl | hz
      · exact le_of_not_le hq
      · exact (le_of_not_le hq).trans (h.1 z hz)

theorem sorted_foldl_insertByValue {α : Type} [LinearOrder α] :
    ∀ (l acc : List (ℕ × α)), acc.Sorted (fun x y => x.2 ≤ y.2) →
      (l.foldl (fun acc p => insertByValue p acc) acc).Sorted (fun x y => x.2 ≤ y.2)
  | [], _, h => h
  | x :: xs, acc, h =>
    sorted_foldl_insertByValue xs (insertByValue x acc) (sorted_insertByValue x acc h)

theorem getD_eq_of_mem_enum {α : Type} {l : List α} {p : ℕ × α}
    (hp : p ∈ l.enum) (d : α) : l.getD p.1 d = p.2 := by
  rw [List.getD_eq_getElem?_getD, List.mem_enum_iff_getElem?.mp hp]
  rfl

theorem argsort_values_sorted {α : Type} [LinearOrder α] (l : List α) (d : α) :
    ((argsort l).map (fun i => l.getD i d)).Sorted (fun x y => x ≤ y) := by
  have hsorted := sorted_foldl_insertByValue l.enum [] (by simp)
  have hperm : List.Perm (l.enum.foldl (fun acc p => insertByValue p acc) []) l.enum := by
    simpa using foldl_insertByValue_perm l.enum []
  rw [argsort, List.map_map]
  have hcongr : (l.enum.foldl (fun acc p => insertByValue p acc) []).map
      ((fun i => l.getD i d) ∘ Prod.fst) =
      (l.enum.foldl (fun acc p => insertByValue p acc) []).map Prod.snd :=
    List.map_congr_left (fun p hp => getD_eq_of_mem_enum (hperm.mem_iff.mp hp) d)
  rw [hcongr]
  exact (List.pairwise_map).mpr hsorted

theorem argsort_reverse_values_antitone {α : Type} [LinearOrder α] (l : List α) (d : α) :
    (((argsort l).reverse).map (fun i => l.getD i d)).Sorted (fun x y => y ≤ x) := by
  rw [List.map_reverse]
  exact (List.pairwise_reverse).mpr (argsort_values_sorted l d)

/-! ### Shape of the doc_topic stream -/

theorem doc_topic_block_eq (d : ℕ) (row : List ℚ) :
    generic_generator3 (List.replicate row.length d) (List.range row.length) row =
      row.enum.map (fun q => (d, q.1, q.2)) := by
  rw [generic_generator3_replicate, List.enum, List.enumFrom_eq_zip_range',
    ← List.range_eq_range', List.take_of_length_le (by simp)]

theorem write_doc_topic_rows_eq (gamma : List (List ℚ)) :
    write_doc_topic_rows gamma =
      (gamma.enum.map (fun p => p.2.enum.map (fun q => (p.1, q.1, q.2)))).flatten := by
  rw [write_doc_topic_rows]
  congr 1
  exact List.map_congr_left (fun p _ => doc_topic_block_eq p.1 p.2)

theorem filter_flatten_eq {α : Type} (p : α → Bool) :
    ∀ (L : List (List α)), L.flatten.filter p = (L.map (List.filter p)).flatten
  | [] => rfl
  | l :: L => by
    rw [List.flatten_cons, List.filter_append, filter_flatten_eq p L,
      List.map_cons, List.flatten_cons]

theorem doc_topic_far_blocks_filter_nil (d : ℕ) (rows : List (List ℚ)) (n : ℕ)
    (h : d < n) :
    (((List.enumFrom n rows).map
      (fun p => p.2.enum.map (fun q => (p.1, q.1, q.2)))).flatten.filter
        (fun r => r.1 == d)) = [] := by
  rw [List.filter_eq_nil_iff]
  intro x hx
  simp only [List.mem_flatten, List.mem_map] at hx
  obtain ⟨_, ⟨p, hp, rfl⟩, hx⟩ := hx
  simp only [List.mem_map] at hx
  obtain ⟨q, _, rfl⟩ := hx
  obtain ⟨i, v⟩ := p
  have hle : n ≤ i := (List.mk_mem_enumFrom_iff_le_and_getElem?_sub.mp hp).1
  simp only [beq_iff_eq]
  omega

theorem doc_topic_filter_enumFrom (d : ℕ) :
    ∀ (rows : List (List ℚ)) (n : ℕ), n ≤ d → d - n < rows.length →
      ((((List.enumFrom n rows).map
        (fun p => p.2.enum.map (fun q => (p.1, q.1, q.2)))).flatten).filter
          (fun r => r.1 == d)) =
        (rows.getD (d - n) []).enum.map (fun q => (d, q.1, q.2))
  | [], n, _, hd => by simp at hd
  | row :: rest, n, hn, hd => by
    rw [List.enumFrom_cons, List.map_cons, List.flatten_cons, List.filter_append]
    by_cases hnd : n = d
    · subst hnd
      have h1 : (row.enum.map (fun q => (n, q.1, q.2))).filter (fun r => r.1 == n) =
          row.enum.map (fun q => (n, q.1, q.2)) := by
        rw [List.filter_eq_self]
        intro x hx
        simp only [List.mem_map] at hx
        obtain ⟨q, _, rfl⟩ := hx
        simp
      rw [h1, doc_topic_far_blocks_filter_nil n rest (n + 1) (by omega),
        List.append_nil, Nat.sub_self, List.getD_cons_zero]
    · have hlt : n < d := lt_of_le_of_ne hn hnd
      have h1 : (row.enum.map (fun q => (n, q.1, q.2))).filter (fun r => r.1 == d) = [] := by
        rw [List.filter_eq_nil_iff]
        intro x hx
        simp only [List.mem_map] at hx
        obtain ⟨q, _, rfl⟩ := hx
        simp only [beq_iff_eq]
        omega
      rw [h1, List.nil_append,
        doc_topic_filter_enumFrom d rest (n + 1) hlt
          (by simp only [List.length_cons] at hd; omega)]
      rw [show d - n = (d - (n + 1)) + 1 from by omega, List.getD_cons_succ]

/-! ### Remaining support lemmas -/

theorem mem_gg3_head {α γ : Type} (a : α) (c : γ) (cs : List γ) :
    (a, 0, c) ∈ generic_generator3 (List.replicate (c :: cs).length a)
      (List.range (c :: cs).length) (c :: cs) := by
  rw [List.length_cons, List.replicate_succ, List.range_succ_eq_map]
  exact List.mem_cons_self _ _

theorem topic_topic_block_self_head (t0 : List ℝ) (rest : List (List ℝ)) :
    (0, 0, (0 : ℝ)) ∈ topic_topic_block (t0 :: rest) (0, t0) := by
  simp only [topic_topic_block, List.drop_zero, List.map_cons, sumSq_zipWith_sub_self]
  rw [show 0.5 * (0:ℝ) / (100 * (t0.length : ℝ)) = 0 from by norm_num]
  exact mem_gg3_head 0 0 _

theorem argsort_rat_example : argsort [(0.1 : ℚ), 0.7, 0.2] = [0, 2, 1] := by
  norm_num [argsort, List.enum, List.enumFrom, insertByValue]

theorem sum_map_div (l : List ℚ) (c : ℚ) :
    (List.map (fun x => x / c) l).sum = l.sum / c := by
  induction l with
  | nil => simp
  | cons x xs ih => simp [ih, add_div]

theorem bhatt_distance_none (a : List ℝ) (b : List (List ℝ)) (k : ℕ) (hb : b ≠ [])
    (h : ∀ row ∈ b, row.length = k) (h1 : a.length ≠ k) : bhatt_distance a b = none := by
  rw [bhatt_distance, npDotMatVec_none _ _ k]
  · rfl
  · simpa using hb
  · intro row hrow
    simp only [List.mem_map] at hrow
    obtain ⟨r, hr, rfl⟩ := hrow
    simp [h r hr]
  · simpa using h1

theorem cosine_distance_none (a : List ℝ) (b : List (List ℝ)) (k : ℕ) (hb : b ≠ [])
    (h : ∀ row ∈ b, row.length = k) (h1 : a.length ≠ k) : cosine_distance a b = none := by
  rw [cosine_distance]
  rw [npDotMatVec_none b a k hb h h1]
  rfl

theorem euclidean_distance_none (a : List ℝ) (b : List (List ℝ)) (k : ℕ) (hb : b ≠ [])
    (h : ∀ row ∈ b, row.length = k) (h1 : a.length ≠ k) (h2 : a.length ≠ 1)
    (h3 : k ≠ 1) : euclidean_distance a b = none := by
  rw [euclidean_distance, npBroadcast_none _ _ _ k hb h h1 h2 h3]
  rfl

theorem kl_distance_none (a : List ℝ) (b : List (List ℝ)) (k : ℕ) (hb : b ≠ [])
    (h : ∀ row ∈ b, row.length = k) (h1 : a.length ≠ k) (h2 : a.length ≠ 1)
    (h3 : k ≠ 1) : kl_distance a b = none := by
  rw [kl_distance]
  rw [npBroadcast_none _ _ _ k (by simpa using hb) ?hr (by simpa using h1)
    (by simpa using h2) h3]
  · rfl
  case hr =>
    intro row hrow
    simp only [List.mem_map] at hrow
    obtain ⟨r, hr, rfl⟩ := hrow
    simp [h r hr]

theorem hellinger_distance_none (a : List ℝ) (b : List (List ℝ)) (k : ℕ) (hb : b ≠ [])
    (h : ∀ row ∈ b, row.length = k) (h1 : a.length ≠ k) (h2 : a.length ≠ 1)
    (h3 : k ≠ 1) : hellinger_distance a b = none := by
  rw [hellinger_distance]
  rw [npBroadcast_none _ _ _ k (by simpa using hb) ?hr (by simpa using h1)
    (by simpa using h2) h3]
  · rfl
  case hr =>
    intro row hrow
    simp only [List.mem_map] at hrow
    obtain ⟨r, hr, rfl⟩ := hrow
    simp [h r hr]

theorem get_topic_score_none (a : List ℝ) (b : List (List ℝ)) (k : ℕ) (hb : b ≠ [])
    (h : ∀ row ∈ b, row.length = k) (h1 : a.length ≠ k) (h2 : a.length ≠ 1)
    (h3 : k ≠ 1) : get_topic_score a b = none := by
  rw [get_topic_score]
  rw [npBroadcast_none _ _ _ k (by simpa using hb) ?hr (by simpa using h1)
    (by simpa using h2) h3]
  · rfl
  case hr =>
    intro row hrow
    simp only [List.mem_map] at hrow
    obtain ⟨r, hr, rfl⟩ := hrow
    simp [h r hr]

theorem get_term_score_none (a : List ℝ) (b : List (List ℝ)) (k : ℕ) (hb : b ≠ [])
    (h : ∀ row ∈ b, row.length = k) (h1 : a.length ≠ k) (h2 : a.length ≠ 1)
    (h3 : k ≠ 1) : get_term_score a b = none := by
  rw [get_term_score, npBroadcast_none _ _ _ k hb h h1 h2 h3]
  rfl

/-! ### Claim theorems -/

/-- C1: the claim says each symmetric builder writes the global id
`i + local_index` for every surviving candidate.  The code does not add the
offset: on the 2-document gamma matrix `[[1,0],[0,1]]` the row emitted for
reference document 1 is `(1, 0, inf)` (the local index 0 names document 1
itself), while the claimed translation would produce `(1, 1, inf)`; no such
row is present.  This evaluates the code at the failing input. -/
theorem doc_doc_writes_local_index :
    ∃ L, write_doc_doc_rows [[1, 0], [0, 1]] = some L ∧
      (1, 0, (⊤ : WithTop ℝ)) ∈ L ∧ (1, 1, (⊤ : WithTop ℝ)) ∉ L := by
  refine ⟨_, doc_doc_eval_2x2, by simp, ?_⟩
  intro hmem
  simp [Prod.ext_iff] at hmem

/-- C2: the claim says every materialized pair satisfies
`entity_b >= entity_a`.  On the gamma matrix `[[1,0],[0,1]]` the builder
emits the row `(1, 0, inf)` with `entity_b = 0 < entity_a = 1`, because the
missing `i + local_index` offset writes the local slice index as the global
id.  This evaluates the code at the failing input. -/
theorem doc_doc_emits_pair_below_diagonal :
    ∃ L, write_doc_doc_rows [[1, 0], [0, 1]] = some L ∧ ∃ r ∈ L, r.2.1 < r.1 := by
  refine ⟨_, doc_doc_eval_2x2, ⟨(1, 0, ⊤), by simp, by norm_num⟩⟩

/-- C3 counterexample: the claim says no symmetric-relation row ever has
`entity_a = entity_b`, in particular for topic_topic.  On the one-topic beta
matrix `[[1]]` the topic_topic builder emits `(0, 0, 0)` — the topic compared
with itself, score exactly 0 — refuting the claim. -/
theorem topic_topic_contains_self_pair_concrete :
    ∃ L, write_topic_topic_rows [[1]] = some L ∧ ∃ s : ℝ, (0, 0, s) ∈ L :=
  ⟨_, topic_topic_eval_1x1, 0, by simp⟩

/-- C3 amended: the topic_topic builder performs no zero-drop and no
truncation, so for every nonempty beta matrix (uniform positive row length)
the self-comparison of topic 0 is materialized as the row `(0, 0, 0)` with
`entity_a = entity_b`; self-pairs do occur in topic_topic. -/
theorem topic_topic_emits_self_comparison (beta : List (List ℚ)) (k : ℕ)
    (_hk : 0 < k) (h : ∀ row ∈ beta, row.length = k) (hne : beta ≠ []) :
    ∃ L, write_topic_topic_rows beta = some L ∧ (0, 0, (0 : ℝ)) ∈ L := by
  refine ⟨_, write_topic_topic_rows_of_uniform beta k h, ?_⟩
  obtain ⟨b, rest, rfl⟩ := List.exists_cons_of_ne_nil hne
  have henum : (toRealRows (b :: rest)).enum =
      (0, List.map (fun q => ((q : ℚ) : ℝ)) b) :: (toRealRows rest).enumFrom 1 := rfl
  rw [henum, List.map_cons, List.flatten_cons]
  exact List.mem_append_left _
    (topic_topic_block_self_head (List.map (fun q => ((q : ℚ) : ℝ)) b) (toRealRows rest))

/-- Witness for the amended C3 theorem at the concrete beta matrix `[[1]]`. -/
theorem topic_topic_emits_self_comparison_witness :
    ((0 : ℕ) < 1 ∧ (∀ row ∈ ([[1]] : List (List ℚ)), row.length = 1) ∧
      ([[1]] : List (List ℚ)) ≠ []) ∧
    (∃ L, write_topic_topic_rows [[1]] = some L ∧ (0, 0, (0 : ℝ)) ∈ L) :=
  ⟨⟨by decide, by decide, by simp⟩,
    topic_topic_emits_self_comparison [[1]] 1 (by decide) (by decide) (by simp)⟩

/-- C4 counterexample: the claim bounds the total doc_doc row count by
`sum(min(100, N-1-i))`.  For the 2-document matrix `[[1,0],[0,1]]` that bound
is 1, but the builder emits 3 rows (remapped-to-infinity zero scores are not
dropped, so every reference also emits its self-comparison). -/
theorem doc_doc_count_exceeds_claimed_bound :
    ∃ L, write_doc_doc_rows [[1, 0], [0, 1]] = some L ∧
      ¬ L.length ≤ ((List.range 2).map (fun i => min 100 (2 - 1 - i))).sum := by
  refine ⟨_, doc_doc_eval_2x2, ?_⟩
  simp
  decide

/-- C4 amended: each reference `i` of `write_doc_doc` contributes exactly
`min(100, N - i)` rows — at most 100, fewer only when the candidate slice
`theta[i:]` (which still contains the reference itself, remapped to infinity)
is shorter than 100 — so the total is `sum(min(100, N-i) for i in 0..N-1)`. -/
theorem doc_doc_total_rows (gamma : List (List ℚ)) (k : ℕ)
    (h : ∀ row ∈ gamma, row.length = k) :
    ∃ L, write_doc_doc_rows gamma = some L ∧
      L.length =
        ((List.range gamma.length).map (fun i => min 100 (gamma.length - i))).sum :=
  doc_doc_total_row_count gamma k h

/-- Witness for the amended C4 theorem at the matrix `[[1,0],[0,1]]`. -/
theorem doc_doc_total_rows_witness :
    (∀ row ∈ ([[1, 0], [0, 1]] : List (List ℚ)), row.length = 2) ∧
    (∃ L, write_doc_doc_rows [[1, 0], [0, 1]] = some L ∧
      L.length = ((List.range 2).map (fun i => min 100 (2 - i))).sum) :=
  ⟨by decide, doc_doc_total_rows [[1, 0], [0, 1]] 2 (by decide)⟩

/-- C5 counterexample: the claim says that for a 3x3 document-topic matrix
with documents 0 and 1 identical, the Hellinger score is exactly 0 and the
pair (0,1) does not appear among the rows emitted for reference 0.  The score
is indeed exactly 0, but on `[[1,0,0],[1,0,0],[0,1,0]]` the row
`(0, 1, inf)` IS emitted: with only 3 candidates the `[:100]` cut keeps the
remapped-to-infinity entries. -/
theorem doc_doc_zero_pair_emitted :
    hellinger_distance [(1:ℝ), 0, 0] [[(1:ℝ), 0, 0]] = some [0] ∧
    ∃ L, write_doc_doc_rows [[1, 0, 0], [1, 0, 0], [0, 1, 0]] = some L ∧
      (0, 1, (⊤ : WithTop ℝ)) ∈ L := by
  constructor
  · rw [hellinger_distance_of_uniform _ _ (by intro row hrow; simp at hrow; subst hrow; rfl)]
    simp [sumSq_zipWith_sub_self, sumSq]
  · exact ⟨_, doc_doc_eval_3x3, by simp⟩

/-- C5 amended: on the 3x3 matrix `[[1,0,0],[1,0,0],[0,1,0]]` (documents 0
and 1 identical) the Hellinger score between documents 0 and 1 is exactly 0,
it is remapped to positive infinity before the top-K cut, and the pair (0,1)
appears among the rows for reference 0 only with the sentinel score infinity,
never with a finite score: zero-distance pairs are pushed to the end of the
ranking, and are dropped only when more than 100 candidates remain. -/
theorem doc_doc_zero_pair_only_with_inf_score :
    hellinger_distance [(1:ℝ), 0, 0] [[(1:ℝ), 0, 0]] = some [0] ∧
    ∃ L, write_doc_doc_rows [[1, 0, 0], [1, 0, 0], [0, 1, 0]] = some L ∧
      (0, 1, (⊤ : WithTop ℝ)) ∈ L ∧ ∀ s : ℝ, (0, 1, ((s : ℝ) : WithTop ℝ)) ∉ L := by
  constructor
  · rw [hellinger_distance_of_uniform _ _ (by intro row hrow; simp at hrow; subst hrow; rfl)]
    simp [sumSq_zipWith_sub_self, sumSq]
  · refine ⟨_, doc_doc_eval_3x3, by simp, ?_⟩
    intro s hmem
    simp [Prod.ext_iff] at hmem

/-- C6: the claim says the term_term builder iterates over the V vocabulary
terms as reference entities.  The code iterates over the rows of beta (one
per topic): on the 1-topic, 2-term matrix `[[0,0]]` the builder emits exactly
one row, `(0, 0, inf)`, and no row references term 1, although the
vocabulary has V = 2 terms.  This evaluates the code at the failing input. -/
theorem term_term_iterates_beta_rows :
    ∃ L, write_term_term_rows [[0, 0]] = some L ∧
      L = [(0, 0, (⊤ : WithTop ℝ))] ∧ ∀ r ∈ L, r.1 = 0 := by
  refine ⟨_, term_term_eval_1x2, rfl, ?_⟩
  intro r hr
  simp only [List.mem_singleton] at hr
  subst hr
  rfl

/-- C7: the derived topic title takes the three highest-weight terms in
descending-weight order: on vocabulary `["a","b","c"]` and weight row
`[0.1, 0.7, 0.2]` the stored title is the display label listing `b`, `c`,
`a`; and in general the reverse argsort ranks the weights descendingly. -/
theorem topics_title_top3_descending :
    write_topics_titles [[0.1, 0.7, 0.2]] ["a", "b", "c"] = ["\x7bb, c, a\x7d"] ∧
    ∀ (topic : List ℚ),
      (((argsort topic).reverse).map (fun i => topic.getD i 0)).Sorted
        (fun x y => y ≤ x) := by
  constructor
  · rw [write_topics_titles, List.map_cons, List.map_nil]
    simp only [topic_title]
    rw [argsort_rat_example]
    rfl
  · exact fun topic => argsort_reverse_values_antitone topic 0

/-- C8: after the doc_doc builder's row normalization, a gamma row with
nonzero sum becomes a theta row that sums exactly to 1, and it is entrywise
non-negative whenever the gamma row is. -/
theorem theta_rows_normalized (gamma : List (List ℚ)) (row : List ℚ)
    (hrow : row ∈ gamma) (hsum : row.sum ≠ 0) :
    List.map (fun x => x / row.sum) row ∈ normalizeRows gamma ∧
    (List.map (fun x => x / row.sum) row).sum = 1 ∧
    ((∀ x ∈ row, 0 ≤ x) → ∀ y ∈ List.map (fun x => x / row.sum) row, 0 ≤ y) := by
  refine ⟨List.mem_map_of_mem _ hrow, ?_, ?_⟩
  · rw [sum_map_div, div_self hsum]
  · intro hnn y hy
    simp only [List.mem_map] at hy
    obtain ⟨x, hx, rfl⟩ := hy
    exact div_nonneg (hnn x hx) (List.sum_nonneg hnn)

/-- Witness for the C8 theorem at gamma `[[1,3]]`: the normalized row is
`[1/4, 3/4]`. -/
theorem theta_rows_normalized_witness :
    (([1, 3] : List ℚ) ∈ ([[1, 3]] : List (List ℚ)) ∧ ([1, 3] : List ℚ).sum ≠ 0) ∧
    (List.map (fun x => x / ([1, 3] : List ℚ).sum) [1, 3] ∈ normalizeRows [[1, 3]] ∧
      (List.map (fun x => x / ([1, 3] : List ℚ).sum) [1, 3]).sum = 1 ∧
      ((∀ x ∈ ([1, 3] : List ℚ), 0 ≤ x) →
        ∀ y ∈ List.map (fun x => x / ([1, 3] : List ℚ).sum) [1, 3], 0 ≤ y)) :=
  ⟨⟨by simp, by norm_num⟩, theta_rows_normalized [[1, 3]] [1, 3] (by simp) (by norm_num)⟩

/-- C9 counterexample: the claim says every distance function fails whenever
`len(a)` differs from the row length of `b`.  But numpy broadcasting accepts
a length-1 reference against rows of length 2: `hellinger_distance([1],
[[0,1]])` succeeds and returns `[1]` instead of failing. -/
theorem hellinger_mismatch_broadcasts :
    hellinger_distance [(1:ℝ)] [[0, 1]] = some [1] ∧
      ([(1:ℝ)]).length ≠ ([(0:ℝ), 1]).length := by
  constructor
  · rw [hellinger_distance]
    norm_num [npBroadcast, Real.sqrt_one, Real.sqrt_zero, sumSq]
  · norm_num

/-- C9 amended: a dimension mismatch `len(a) ≠ k` (`k` the row length of the
2-d candidate block) makes the dot-based functions (Bhattacharyya, cosine)
fail always, and the elementwise functions (Euclidean, KL, Hellinger, topic
score, term score) fail unless numpy broadcasting applies, i.e. unless
`len(a) = 1` or `k = 1`. -/
theorem distance_functions_mismatch (a : List ℝ) (b : List (List ℝ)) (k : ℕ)
    (hb : b ≠ []) (hrows : ∀ row ∈ b, row.length = k) (hnk : a.length ≠ k) :
    (bhatt_distance a b = none ∧ cosine_distance a b = none) ∧
    (a.length ≠ 1 → k ≠ 1 →
      euclidean_distance a b = none ∧ kl_distance a b = none ∧
      hellinger_distance a b = none ∧ get_topic_score a b = none ∧
      get_term_score a b = none) :=
  ⟨⟨bhatt_distance_none a b k hb hrows hnk, cosine_distance_none a b k hb hrows hnk⟩,
    fun h2 h3 => ⟨euclidean_distance_none a b k hb hrows hnk h2 h3,
      kl_distance_none a b k hb hrows hnk h2 h3,
      hellinger_distance_none a b k hb hrows hnk h2 h3,
      get_topic_score_none a b k hb hrows hnk h2 h3,
      get_term_score_none a b k hb hrows hnk h2 h3⟩⟩

/-- Witness for the amended C9 theorem: a 3-entry reference against one
2-entry candidate row. -/
theorem distance_functions_mismatch_witness :
    (([[0, 0]] : List (List ℝ)) ≠ [] ∧
      (∀ row ∈ ([[0, 0]] : List (List ℝ)), row.length = 2) ∧
      ([(0:ℝ), 0, 0]).length ≠ 2) ∧
    ((bhatt_distance [(0:ℝ), 0, 0] [[0, 0]] = none ∧
      cosine_distance [(0:ℝ), 0, 0] [[0, 0]] = none) ∧
    (([(0:ℝ), 0, 0]).length ≠ 1 → (2 : ℕ) ≠ 1 →
      euclidean_distance [(0:ℝ), 0, 0] [[0, 0]] = none ∧
      kl_distance [(0:ℝ), 0, 0] [[0, 0]] = none ∧
      hellinger_distance [(0:ℝ), 0, 0] [[0, 0]] = none ∧
      get_topic_score [(0:ℝ), 0, 0] [[0, 0]] = none ∧
      get_term_score [(0:ℝ), 0, 0] [[0, 0]] = none)) :=
  ⟨⟨by simp, by simp, by simp⟩,
    distance_functions_mismatch [(0:ℝ), 0, 0] [[0, 0]] 2 (by simp) (by simp) (by simp)⟩

/-- C10: the doc_topic stream stores, for each document `d`, the raw parsed
gamma values in ascending topic order: the rows whose first component is `d`
are exactly `(d, t, gamma[d][t])` for `t = 0, 1, ...`, one per topic; in
particular the row `(d, t, gamma[d][t])` is materialized with the raw (not
row-normalized) weight. -/
theorem doc_topic_stores_raw_gamma (gamma : List (List ℚ)) (d t : ℕ)
    (hd : d < gamma.length) (ht : t < (gamma.getD d []).length) :
    (write_doc_topic_rows gamma).filter (fun r => r.1 == d) =
      (gamma.getD d []).enum.map (fun q => (d, q.1, q.2)) ∧
    (d, t, (gamma.getD d []).getD t 0) ∈ write_doc_topic_rows gamma := by
  have hfilter : (write_doc_topic_rows gamma).filter (fun r => r.1 == d) =
      (gamma.getD d []).enum.map (fun q => (d, q.1, q.2)) := by
    rw [write_doc_topic_rows_eq, List.enum]
    exact doc_topic_filter_enumFrom d gamma 0 (Nat.zero_le d) (by simpa using hd)
  refine ⟨hfilter, ?_⟩
  have h1 : (gamma.getD d [])[t]? = some ((gamma.getD d []).getD t 0) := by
    rw [List.getElem?_eq_getElem ht]
    rw [show (gamma.getD d []).getD t 0 = ((gamma.getD d [])[t]?).getD 0 from
      List.getD_eq_getElem?_getD _ _ _]
    rw [List.getElem?_eq_getElem ht]
    rfl
  have hmem : (d, t, (gamma.getD d []).getD t 0) ∈
      (gamma.getD d []).enum.map (fun q => (d, q.1, q.2)) :=
    List.mem_map.mpr ⟨(t, (gamma.getD d []).getD t 0),
      List.mem_enum_iff_getElem?.mpr h1, rfl⟩
  exact List.mem_of_mem_filter (hfilter ▸ hmem)

/-- Witness for the C10 theorem at gamma `[[5,6],[7,8]]`, document 1,
topic 0. -/
theorem doc_topic_stores_raw_gamma_witness :
    ((1 : ℕ) < ([[5, 6], [7, 8]] : List (List ℚ)).length ∧
      (0 : ℕ) < (([[5, 6], [7, 8]] : List (List ℚ)).getD 1 []).length) ∧
    ((write_doc_topic_rows [[5, 6], [7, 8]]).filter (fun r => r.1 == 1) =
      (([[5, 6], [7, 8]] : List (List ℚ)).getD 1 []).enum.map (fun q => (1, q.1, q.2)) ∧
    (1, 0, (([[5, 6], [7, 8]] : List (List ℚ)).getD 1 []).getD 0 0) ∈
      write_doc_topic_rows [[5, 6], [7, 8]]) :=
  ⟨⟨by decide, by decide⟩,
    doc_topic_stores_raw_gamma [[5, 6], [7, 8]] 1 0 (by decide) (by decide)⟩
